import Mathlib

/-!
Verification development for the rule-driven file organizer.

The Python sources under `scripts/` are shallowly embedded here:
pure string/number manipulation becomes Lean functions, filesystem state
becomes an explicit `FS` value threaded through the stateful actions, and
external collaborators (the `re` regex engine, macOS `xattr`/`osascript`
calls) become function-valued fields of an `Env` record, since their
behaviour lives outside the repository.
-/

namespace FileOrg

/-! ## Basic string helpers (Python `str` methods used by the sources) -/

def isSpaceChar (c : Char) : Bool := c.isWhitespace

def digitsNat (cs : List Char) : Nat :=
  cs.foldl (fun a c => a * 10 + (c.toNat - 48)) 0

/-- Python `str.strip()` with no argument: whitespace from both ends. -/
def pyStrip (s : String) : String :=
  String.mk (((s.toList.dropWhile isSpaceChar).reverse.dropWhile isSpaceChar).reverse)

/-- Python `str.upper()` (ASCII range, which is all the sources use). -/
def upperStr (s : String) : String := String.mk (s.toList.map Char.toUpper)

/-- Python `str.lower()` (ASCII range). -/
def lowerStr (s : String) : String := String.mk (s.toList.map Char.toLower)

/-- Python slicing `s[:-n]`. -/
def strDropRight (s : String) (n : Nat) : String :=
  String.mk (s.toList.take (s.toList.length - n))

/-- Python `str.endswith`. -/
def strEndsWith (s u : String) : Bool := u.toList.isSuffixOf s.toList

/-- Python `str.lstrip(".")`. -/
def lstripDot (s : String) : String :=
  String.mk (s.toList.dropWhile (fun c => c = '.'))

/-- Python `str.strip(chars)`: remove any of `chars` from both ends. -/
def stripChars (chars : List Char) (s : String) : String :=
  String.mk (((s.toList.dropWhile (fun c => c ∈ chars)).reverse.dropWhile
    (fun c => c ∈ chars)).reverse)

/-! ## Path helpers (`pathlib.Path` operations used by the sources).
Paths are modelled as plain strings, already normalised the way
`pathlib` renders them (no duplicate or trailing slashes). -/

/-- `Path(p).name`: the part after the last slash. -/
def pathName (p : String) : String :=
  String.mk ((p.toList.reverse.takeWhile (fun c => c ≠ '/')).reverse)

/-- Everything up to and including the last slash (empty if no slash). -/
def pathDirPart (p : String) : String :=
  String.mk ((p.toList.reverse.dropWhile (fun c => c ≠ '/')).reverse)

/-- `Path(p).parent / n` for a plain file name `n`. -/
def joinParent (p n : String) : String := pathDirPart p ++ n

/-- `Path(name)` split into `(stem, suffix)` with pathlib semantics: the
suffix starts at the last dot provided that dot is neither the first nor
the last character of the name. -/
def splitExt (n : String) : String × String :=
  let r := n.toList.reverse
  let extRev := r.takeWhile (fun c => c ≠ '.')
  match r.dropWhile (fun c => c ≠ '.') with
  | [] => (n, "")
  | _ :: stemRev =>
    if stemRev.isEmpty || extRev.isEmpty then (n, "")
    else (String.mk stemRev.reverse, String.mk ('.' :: extRev.reverse))

/-- `os.path.expanduser`: replace a leading `~` with the home directory. -/
def expanduser (home : String) (p : String) : String :=
  if p = "~" then home
  else if p.startsWith "~/" then home ++ p.drop 1
  else p

/-! ## Filesystem model.
`files` lists the regular files (in the order a scan visits them) with
their stat data; `content = none` models an unreadable file.  `dirs` lists
the existing directories, and `tags` the Finder tags written so far. -/

structure FileData where
  size : Int := 0
  mtime : Int := 0
  content : Option (List Nat) := none
deriving DecidableEq

structure FS where
  files : List (String × FileData) := []
  dirs : List String := []
  tags : List (String × List String) := []
deriving DecidableEq

def lookupFile (fs : FS) (p : String) : Option FileData :=
  (fs.files.find? (fun q => decide (q.1 = p))).map (fun q => q.2)

def isFile (fs : FS) (p : String) : Bool := (lookupFile fs p).isSome

def pathExists (fs : FS) (p : String) : Bool :=
  isFile fs p || fs.dirs.contains p

/-- `Path(p).stat().st_size`, `none` when the stat raises `OSError`. -/
def statSize (fs : FS) (p : String) : Option Int :=
  (lookupFile fs p).map (fun d => d.size)

/-- `Path(p).stat().st_mtime`, `none` when the stat raises `OSError`. -/
def statMtime (fs : FS) (p : String) : Option Int :=
  (lookupFile fs p).map (fun d => d.mtime)

/-! ## Python number parsing used by `parse_size` -/

def parseSign : List Char → (Bool × List Char)
  | '+' :: cs => (false, cs)
  | '-' :: cs => (true, cs)
  | cs => (false, cs)

/-- Split at the first `E`/`e`, keeping what follows it separately. -/
def splitOnExp : List Char → (List Char × Option (List Char))
  | [] => ([], none)
  | c :: rest =>
    if c = 'E' ∨ c = 'e' then ([], some rest)
    else
      let (a, b) := splitOnExp rest
      (c :: a, b)

/-- Decimal mantissa `digits[.digits]` with at least one digit, as an
exact fraction `(numerator, power-of-ten denominator)`. -/
def parseMantissa : List Char → Option (Int × Nat)
  | cs =>
    let ip := cs.takeWhile (fun c => c.isDigit)
    match cs.dropWhile (fun c => c.isDigit) with
    | [] => if ip.isEmpty then none else some ((digitsNat ip : Int), 1)
    | '.' :: fp =>
      if fp.all (fun c => c.isDigit) ∧ ¬(ip.isEmpty ∧ fp.isEmpty) then
        some (((digitsNat ip * 10 ^ fp.length + digitsNat fp : Nat) : Int), 10 ^ fp.length)
      else none
    | _ => none

/-- Python `float(s)` restricted to finite decimal literals
`[+-]digits[.digits][E[+-]digits]`, as an exact fraction
`(numerator, power-of-ten denominator)`; `none` models a `ValueError`. -/
def pyFloat (s : String) : Option (Int × Nat) :=
  let (neg, cs) := parseSign s.toList
  let (mantCs, expCs) := splitOnExp cs
  match parseMantissa mantCs with
  | none => none
  | some m =>
    let m : Int × Nat := if neg then (-m.1, m.2) else m
    match expCs with
    | none => some m
    | some ecs =>
      let (eneg, ds) := parseSign ecs
      if (¬ ds.isEmpty) ∧ ds.all (fun c => c.isDigit) then
        let e := digitsNat ds
        some (if eneg then (m.1, m.2 * 10 ^ e) else (m.1 * (10 ^ e : Nat), m.2))
      else none

/-- Python `int(s)` on a stripped string: optional sign, then digits;
`none` models a `ValueError`. -/
def pyInt (s : String) : Option Int :=
  match s.toList with
  | '+' :: cs =>
    if (¬ cs.isEmpty) ∧ cs.all (fun c => c.isDigit) then some (digitsNat cs : Int) else none
  | '-' :: cs =>
    if (¬ cs.isEmpty) ∧ cs.all (fun c => c.isDigit) then some (-(digitsNat cs : Int)) else none
  | cs =>
    if (¬ cs.isEmpty) ∧ cs.all (fun c => c.isDigit) then some (digitsNat cs : Int) else none

/-- Python `int(x)` on a float value `num / den`: truncation toward zero. -/
def fracTrunc (num : Int) (den : Nat) : Int := num.tdiv (den : Int)

/-! ## `parser.py`: `parse_size` -/

/-- The `units` dict of `parse_size`, in its insertion (= iteration) order. -/
def sizeUnits : List (String × Int) :=
  [("B", 1), ("KB", 1024), ("MB", 1024 * 1024), ("GB", 1024 * 1024 * 1024),
   ("TB", 1024 * 1024 * 1024 * 1024)]

/-- The `for unit, multiplier in units.items()` loop of `parse_size`:
`some v` is an early `return v`; `none` covers both the `break` on a
`ValueError` from `float` and falling off the end of the loop, after
which `parse_size` tries a raw `int` parse. -/
def parseSizeLoop (t : String) : List (String × Int) → Option Int
  | [] => none
  | (u, m) :: rest =>
    if strEndsWith t u then
      match pyFloat (strDropRight t u.length) with
      | some q => some (fracTrunc (q.1 * m) q.2)
      | none => none
    else parseSizeLoop t rest

/-- `parser.parse_size`. -/
def parse_size (s : String) : Int :=
  let t := upperStr (pyStrip s)
  match parseSizeLoop t sizeUnits with
  | some v => v
  | none =>
    match pyInt t with
    | some n => n
    | none => 0

/-! ## External collaborators, as an environment record.
`search p n` models `re.search(p, n) is not None`; `reSub p r s` models
`re.sub(p, r, s)`; the tag fields model the `xattr`/`osascript` process
calls made by `tagger.py`, which can only write file metadata, and the
trash fields model `deduplicator._move_to_trash`'s external deletion. -/

structure Env where
  home : String := "/home/user"
  search : String → String → Bool := fun _ _ => false
  reSub : String → String → String → String := fun _ _ s => s
  is_macos : Bool := false
  tagRaises : String → List String → Bool := fun _ _ => false
  tagWrite : String → List String → List (String × List String) →
    List (String × List String) := fun _ _ t => t
  trashOk : String → Bool := fun _ => true

/-! ## `parser.py`: `Condition` and `Condition.matches` -/

structure Condition where
  path : Option String := none
  extension : Option (List String) := none
  pattern : Option String := none
  size_gt : Option Int := none
  size_lt : Option Int := none
  name_pattern : Option String := none
deriving DecidableEq

/-- Python truthiness of an `Optional[str]` field. -/
def truthyStr : Option String → Bool
  | none => false
  | some s => ¬ s.isEmpty

/-- Python truthiness of an `Optional[List[str]]` field. -/
def truthyList : Option (List String) → Bool
  | none => false
  | some l => ¬ l.isEmpty

/-- Python truthiness of an `Optional[int]` field. -/
def truthyInt : Option Int → Bool
  | none => false
  | some n => n ≠ 0

/-- `Condition.matches`: the short-circuiting conjunction of the per-field
checks, each skipped when its field is falsy, with the size check failing
closed when the stat raises. -/
def Condition.matches (c : Condition) (env : Env) (fs : FS) (fp : String) : Bool :=
  (if truthyStr c.path then fp.startsWith (expanduser env.home (c.path.getD "")) else true) &&
  (if truthyList c.extension then
      let ext := lstripDot (lowerStr (splitExt (pathName fp)).2)
      (c.extension.getD []).any (fun e => lstripDot (lowerStr e) = ext)
    else true) &&
  (if truthyStr c.name_pattern then env.search (c.name_pattern.getD "") (pathName fp) else true) &&
  (if truthyStr c.pattern then env.search (c.pattern.getD "") (pathName fp) else true) &&
  (if truthyInt c.size_gt || truthyInt c.size_lt then
      match statSize fs fp with
      | none => false
      | some sz =>
        (if truthyInt c.size_gt then decide (¬ sz ≤ c.size_gt.getD 0) else true) &&
        (if truthyInt c.size_lt then decide (¬ c.size_lt.getD 0 ≤ sz) else true)
    else true)

/-! ## `actions/deduplicator.py` -/

/-- The grouping key of `_find_by_content`: `some` of the SHA-256 digest
for a readable regular file (the digest is modelled by the byte content
itself), `none` when `is_file` is false or hashing raises. -/
def eligKey (fs : FS) (p : String) : Option (List Nat) :=
  (lookupFile fs p).bind (fun d => d.content)

/-- Append `p` to the group of key `k`, creating the group at the end on
first sight of `k` — exactly the `defaultdict(list)` update order. -/
def addGroup (k : List Nat) (p : String) :
    List (List Nat × List String) → List (List Nat × List String)
  | [] => [(k, [p])]
  | (k', ps) :: rest =>
    if k' = k then (k', ps ++ [p]) :: rest else (k', ps) :: addGroup k p rest

def contentGroupsAux (fs : FS) (acc : List (List Nat × List String)) :
    List String → List (List Nat × List String)
  | [] => acc
  | p :: rest =>
    match eligKey fs p with
    | some k => contentGroupsAux fs (addGroup k p acc) rest
    | none => contentGroupsAux fs acc rest

/-- `Deduplicator._find_by_content`. -/
def findByContent (fs : FS) (files : List String) : List (List String) :=
  ((contentGroupsAux fs [] files).map (fun g => g.2)).filter (fun g => 1 < g.length)

/-- The list bound to key `k` in the association list built by
`contentGroupsAux` (`hash_groups[k]`, `[]` when absent). -/
def getGroup (k : List Nat) (acc : List (List Nat × List String)) : List String :=
  match acc.find? (fun kv => decide (kv.1 = k)) with
  | some kv => kv.2
  | none => []

/-- Grouping by `file_path.name`, used by `_find_by_name`. -/
def addNameGroup (k : String) (p : String) :
    List (String × List String) → List (String × List String)
  | [] => [(k, [p])]
  | (k', ps) :: rest =>
    if k' = k then (k', ps ++ [p]) :: rest else (k', ps) :: addNameGroup k p rest

def nameGroupsAux (acc : List (String × List String)) :
    List String → List (String × List String)
  | [] => acc
  | p :: rest => nameGroupsAux (addNameGroup (pathName p) p acc) rest

/-- `Deduplicator._find_by_name`. -/
def findByName (files : List String) : List (List String) :=
  ((nameGroupsAux [] files).map (fun g => g.2)).filter (fun g => 1 < g.length)

/-- `Deduplicator.find_duplicates`. -/
def find_duplicates (fs : FS) (files : List String) (check_by : String) :
    List (List String) :=
  if check_by = "name" then findByName files else findByContent fs files

/-- Python `max(group, key=lambda p: p.stat().st_mtime)` after the first
element: keeps the current best on ties, errors when a stat raises. -/
def maxByMtimeAux (fs : FS) (best : String) (bk : Int) :
    List String → Except String String
  | [] => .ok best
  | p :: rest =>
    match statMtime fs p with
    | none => .error ("stat failed: " ++ p)
    | some m =>
      if bk < m then maxByMtimeAux fs p m rest else maxByMtimeAux fs best bk rest

def maxByMtime (fs : FS) : List String → Except String String
  | [] => .error "max() arg is an empty sequence"
  | p :: rest =>
    match statMtime fs p with
    | none => .error ("stat failed: " ++ p)
    | some m => maxByMtimeAux fs p m rest

def minByMtimeAux (fs : FS) (best : String) (bk : Int) :
    List String → Except String String
  | [] => .ok best
  | p :: rest =>
    match statMtime fs p with
    | none => .error ("stat failed: " ++ p)
    | some m =>
      if m < bk then minByMtimeAux fs p m rest else minByMtimeAux fs best bk rest

def minByMtime (fs : FS) : List String → Except String String
  | [] => .error "min() arg is an empty sequence"
  | p :: rest =>
    match statMtime fs p with
    | none => .error ("stat failed: " ++ p)
    | some m => minByMtimeAux fs p m rest

/-- The keep-file selection of `handle_duplicates` (its `if keep == ...`
chain): `"newest"` is `max` by mtime, `"oldest"` is `min` by mtime, and
anything else takes `duplicate_group[0]`. -/
def selectKeep (fs : FS) (group : List String) (keep : String) :
    Except String String :=
  if keep = "newest" then maxByMtime fs group
  else if keep = "oldest" then minByMtime fs group
  else
    match group with
    | [] => .error "list index out of range"
    | p :: _ => .ok p

/-! ## `actions/tagger.py` -/

def tagColorNames : List String :=
  ["gray", "red", "orange", "yellow", "green", "blue", "purple"]

/-- `Tagger.add_tag`: returns its `bool` result together with the
filesystem; the external `xattr`/`osascript` write can only change the
tag metadata, and a raised-and-caught exception (`tagRaises`) yields
`False` with nothing written. -/
def Tagger.add_tag (env : Env) (fp : String) (color label : Option String)
    (fs : FS) : Bool × FS :=
  if ¬ env.is_macos then (false, fs)
  else if ¬ pathExists fs fp then (false, fs)
  else
    let tags :=
      (match color with
       | some c => if (¬ c.isEmpty) ∧ tagColorNames.contains (lowerStr c) then
           [lowerStr c] else []
       | none => []) ++
      (match label with
       | some l => if ¬ l.isEmpty then [l] else []
       | none => [])
    if tags.isEmpty then (false, fs)
    else if env.tagRaises fp tags then (false, fs)
    else (true, { fs with tags := env.tagWrite fp tags fs.tags })

/-! ## `actions/mover.py` -/

/-- Remove a file entry (used by deletion). -/
def removeFile (fs : FS) (p : String) : FS :=
  { fs with files := fs.files.filter (fun q => ¬ q.1 = p) }

/-- Relocate a file entry, keeping its data. -/
def relocateFile (fs : FS) (src dst : String) : FS :=
  { fs with files := fs.files.map (fun q => if q.1 = src then (dst, q.2) else q) }

/-- `Mover.move`. -/
def Mover.move (src dst : String) (fs : FS) : Except String (String × FS) :=
  if ¬ pathExists fs src then .error ("Source file not found: " ++ src)
  else
    let dst := if fs.dirs.contains dst then dst ++ "/" ++ pathName src else dst
    let fs := { fs with dirs := pathDirPart dst :: fs.dirs }
    .ok (dst, relocateFile fs src dst)

/-- `Deduplicator._move_to_trash`: the Finder/`unlink` deletion is
external and best-effort; a failure is caught and leaves the file. -/
def moveToTrash (env : Env) (fs : FS) (p : String) : FS :=
  if env.trashOk p then removeFile fs p else fs

/-- The per-file disposal step of `handle_duplicates`. -/
def disposeDuplicate (env : Env) (tag_duplicates : Bool) (label : String)
    (fs : FS) (p : String) : FS :=
  if tag_duplicates then (Tagger.add_tag env p none (some label) fs).2
  else moveToTrash env fs p

/-- `Deduplicator.handle_duplicates`. -/
def handle_duplicates (env : Env) (group : List String) (keep : String)
    (tag_duplicates : Bool) (label : String) (fs : FS) : Except String FS :=
  if group.length < 2 then .ok fs
  else
    match selectKeep fs group keep with
    | .error e => .error e
    | .ok keep_file =>
      .ok (group.foldl
        (fun fs p => if p = keep_file then fs else disposeDuplicate env tag_duplicates label fs p)
        fs)

/-! ## `actions/renamer.py` -/

/-- One or more repetitions of the separator collapse to a single
occurrence: `re.sub(re.escape(separator) + "+", separator, name)`. -/
def collapseSepsAux (sep : List Char) : Nat → List Char → List Char
  | 0, l => l
  | _ + 1, [] => []
  | fuel + 1, c :: rest =>
    if (¬ sep.isEmpty) ∧ sep.isPrefixOf (c :: rest) then
      sep ++ collapseSepsAux sep fuel (dropSepsPrefix sep (fuel + 1) (c :: rest))
    else c :: collapseSepsAux sep fuel rest
where
  dropSepsPrefix (sep : List Char) : Nat → List Char → List Char
    | 0, l => l
    | fuel + 1, l =>
      if (¬ sep.isEmpty) ∧ sep.isPrefixOf l then
        dropSepsPrefix sep fuel (l.drop sep.length)
      else l

def collapseSeps (sep : String) (s : String) : String :=
  String.mk (collapseSepsAux sep.toList s.toList.length s.toList)

/-- The new-name computation of `Renamer.rename` (source lines 40-62),
with the three `re.sub` pattern substitutions of the `replace` branch
delegated to the external regex engine. -/
def Renamer.computeNewName (env : Env) (nm : String)
    (replace pfx sfx : Option String) (sep : String) : String :=
  let (stem, ext) := splitExt nm
  let n := stem
  let n :=
    if truthyStr replace then
      let r := replace.getD ""
      let n := env.reSub "（(\\d+)）|\\((\\d+)\\)" r n
      let n := env.reSub "\\s*\\(\\d+\\)\\s*" r n
      env.reSub "\\s*\\[\\d+\\]\\s*" r n
    else n
  let n := if truthyStr pfx then (pfx.getD "") ++ sep ++ n else n
  let n := if truthyStr sfx then n ++ sep ++ (sfx.getD "") else n
  let n := collapseSeps sep n
  let n := stripChars sep.toList n
  n ++ ext

/-- `Renamer.rename`. -/
def Renamer.rename (env : Env) (fp : String) (replace pfx sfx : Option String)
    (sep : String) (fs : FS) : Except String (String × FS) :=
  if ¬ pathExists fs fp then .error ("File not found: " ++ fp)
  else
    let newName := Renamer.computeNewName env (pathName fp) replace pfx sfx sep
    let np := joinParent fp newName
    if np ≠ fp then .ok (np, relocateFile fs fp np) else .ok (np, fs)

/-! ## `parser.py`: `Action`, `Rule`, `DuplicateRule` -/

structure Tag where
  color : Option String := none
  label : Option String := none
deriving DecidableEq

structure Action where
  move : Option String := none
  create_if_missing : Bool := false
  rename : Option String := none
  replace : Option String := none
  pfx : Option String := none
  sfx : Option String := none
  separator : String := "-"
  tag : Option Tag := none
deriving DecidableEq

structure Rule where
  name : String
  condition : Condition
  action : Action
  enabled : Bool := true
deriving DecidableEq

/-- The `action` dict of a duplicate rule, read with `.get` defaults at
execution time. -/
structure DupAction where
  keep : Option String := none
  tag_duplicates : Option Bool := none
  duplicate_label : Option String := none
deriving DecidableEq

structure DuplicateRule where
  name : String
  check_by : String := "content"
  action : DupAction := {}
  enabled : Bool := true
deriving DecidableEq

/-! ## `runner.py`: operations and planning -/

/-- The `details` dict of an `Operation`, keyed by the operation kind
that produced it. -/
inductive OpDetails where
  | move (destination : String) (create_if_missing : Bool) (tag : Option Tag)
  | rename (replace : Option String) (pfx : Option String) (sfx : Option String)
      (separator : String)
  | tag (t : Tag)
  | dup (duplicates : List String) (action : DupAction)
deriving DecidableEq

structure Operation where
  rule_name : String
  operation_type : String
  source : String
  details : OpDetails
  executed : Bool := false
  success : Bool := false
  error : Option String := none
deriving DecidableEq

structure OperationResult where
  operation : Operation
  timestamp : Nat
deriving DecidableEq

structure RuleSets where
  move : List Rule := []
  rename : List Rule := []
  tag : List Rule := []
  dup : List DuplicateRule := []
deriving DecidableEq

/-- `Runner._scan_directory`: expand the user directory, return nothing
for a missing path, the path itself for a file, and the recursive file
walk for a directory. -/
def scanDirectory (env : Env) (fs : FS) (path : String) : List String :=
  let sp := expanduser env.home path
  if ¬ pathExists fs sp then []
  else if isFile fs sp then [sp]
  else (fs.files.map (fun q => q.1)).filter (fun q => q.startsWith (sp ++ "/"))

def mkMoveOp (env : Env) (rule : Rule) (fp : String) : Operation :=
  { rule_name := rule.name, operation_type := "move", source := fp,
    details := .move (expanduser env.home (rule.action.move.getD ""))
      rule.action.create_if_missing rule.action.tag }

/-- `Runner._plan_move_operations`: a rule whose condition has a falsy
`path` is skipped outright; otherwise only the rule's path is scanned. -/
def planMoveOps (env : Env) (rule : Rule) (fs : FS) : List Operation :=
  if ¬ truthyStr rule.condition.path then []
  else
    ((scanDirectory env fs (rule.condition.path.getD "")).filter
      (fun fp => rule.condition.matches env fs fp)).map (mkMoveOp env rule)

/-- The fixed default scan locations of `_plan_rename_operations` and
`_plan_tag_operations`. -/
def defaultScanPaths (env : Env) : List String :=
  [expanduser env.home "~/Downloads", expanduser env.home "~/Documents",
   expanduser env.home "~/Desktop"]

def mkRenameOp (rule : Rule) (fp : String) : Operation :=
  { rule_name := rule.name, operation_type := "rename", source := fp,
    details := .rename rule.action.replace rule.action.pfx rule.action.sfx
      rule.action.separator }

/-- `Runner._plan_rename_operations`: always scans the fixed default
locations, then filters by the whole condition. -/
def planRenameOps (env : Env) (rule : Rule) (fs : FS) : List Operation :=
  (defaultScanPaths env).flatMap (fun sp =>
    ((scanDirectory env fs sp).filter (fun fp => rule.condition.matches env fs fp)).map
      (mkRenameOp rule))

def mkTagOp (rule : Rule) (fp : String) : Operation :=
  { rule_name := rule.name, operation_type := "tag", source := fp,
    details := .tag (rule.action.tag.getD {}) }

/-- `Runner._plan_tag_operations`: same fixed default locations. -/
def planTagOps (env : Env) (rule : Rule) (fs : FS) : List Operation :=
  (defaultScanPaths env).flatMap (fun sp =>
    ((scanDirectory env fs sp).filter (fun fp => rule.condition.matches env fs fp)).map
      (mkTagOp rule))

/-- The (narrower) fixed scan locations of `_plan_duplicate_operations`. -/
def dupScanPaths (env : Env) : List String :=
  [expanduser env.home "~/Downloads", expanduser env.home "~/Documents"]

/-- `Runner._plan_duplicate_operations`. -/
def planDupOps (env : Env) (rule : DuplicateRule) (fs : FS) : List Operation :=
  let all_files := (dupScanPaths env).flatMap (scanDirectory env fs)
  (find_duplicates fs all_files rule.check_by).map (fun g =>
    { rule_name := rule.name, operation_type := "duplicate", source := g.headD "",
      details := .dup g rule.action })

/-- `Runner.scan_and_plan`, with the already-loaded rule collections (rule
loading is the out-of-scope YAML collaborator): move, then rename, then
tag, then duplicate rules, in declared order. -/
def scan_and_plan (env : Env) (rules : RuleSets) (fs : FS) : List Operation :=
  rules.move.flatMap (fun r => planMoveOps env r fs) ++
  rules.rename.flatMap (fun r => planRenameOps env r fs) ++
  rules.tag.flatMap (fun r => planTagOps env r fs) ++
  rules.dup.flatMap (fun r => planDupOps env r fs)

/-! ## `runner.py`: execution -/

/-- `Runner._execute_move`: optional `mkdir` of the destination, the move
itself, then — only after a successful move — the optional tag sub-step.
The pair's second component is the captured exception, if any. -/
def execMove (env : Env) (src dest : String) (cim : Bool) (tg : Option Tag)
    (fs : FS) : FS × Option String :=
  let fs1 := if cim then { fs with dirs := dest :: fs.dirs } else fs
  match Mover.move src dest fs1 with
  | .error e => (fs1, some e)
  | .ok (_, fs2) =>
    match tg with
    | some t => ((Tagger.add_tag env src t.color t.label fs2).2, none)
    | none => (fs2, none)

/-- The dispatch on `operation.operation_type` inside `Runner.execute`'s
`try` block; a details/kind mismatch is the `KeyError` a Python dict
lookup would raise. -/
def performOperation (env : Env) (op : Operation) (fs : FS) : FS × Option String :=
  if op.operation_type = "move" then
    match op.details with
    | .move dest cim tg => execMove env op.source dest cim tg fs
    | _ => (fs, some "KeyError")
  else if op.operation_type = "rename" then
    match op.details with
    | .rename r p s sep =>
      match Renamer.rename env op.source r p s sep fs with
      | .ok (_, fs1) => (fs1, none)
      | .error e => (fs, some e)
    | _ => (fs, some "KeyError")
  else if op.operation_type = "tag" then
    match op.details with
    | .tag t => ((Tagger.add_tag env op.source t.color t.label fs).2, none)
    | _ => (fs, some "TypeError")
  else if op.operation_type = "duplicate" then
    match op.details with
    | .dup g a =>
      match handle_duplicates env g (a.keep.getD "newest") (a.tag_duplicates.getD false)
          (a.duplicate_label.getD "重复") fs with
      | .ok fs1 => (fs1, none)
      | .error e => (fs, some e)
    | _ => (fs, some "KeyError")
  else (fs, none)

/-- The loop body of `Runner.execute`: run each operation inside its own
failure boundary, mark it executed with its success or error, and record
one timestamped result; the clock `t` models `datetime.now()`. -/
def executeGo (env : Env) : List Operation → FS → Nat →
    List OperationResult × FS × Nat
  | [], fs, t => ([], fs, t)
  | op :: rest, fs, t =>
    let step := performOperation env op fs
    let opDone :=
      match step.2 with
      | none => { op with executed := true, success := true }
      | some e => { op with executed := true, success := false, error := some e }
    let next := executeGo env rest step.1 (t + 1)
    (⟨opDone, t⟩ :: next.1, next.2)

/-- `Runner.execute`: in dry-run mode nothing runs and the result list is
empty; otherwise every planned operation is attempted in order. -/
def Runner.execute (env : Env) (dry_run : Bool) (ops : List Operation)
    (fs : FS) (t : Nat) : List OperationResult × FS × Nat :=
  if dry_run then ([], fs, t) else executeGo env ops fs t

/-! ## Claim C1: `parse_size` unit parsing.

The `units` dict iterates in insertion order starting with `"B"`, and
`str.endswith("B")` is true for every unit-suffixed size string, so for
`KB`/`MB`/`GB`/`TB` strings the slice passed to `float` still carries the
unit letter, `float` raises, and the loop `break`s to the raw-`int`
fallback, which also fails: the function returns `0` instead of
`number * 1024^k`.  Only the plain-`B` unit (and raw byte integers)
parse as the docstring describes. -/
theorem parse_size_unit_loop_bug :
    parse_size "100KB" = 0 ∧ parse_size "100MB" = 0 ∧ parse_size "4GB" = 0 ∧
    parse_size "100B" = 100 ∧ parse_size "2048" = 2048 ∧
    parse_size "garbage" = 0 :=
  ⟨by decide, by decide, by decide, by decide, by decide, by decide⟩

/-! ## Claim C9: a condition with every optional field unset matches
every file. -/

/-- Claim C9: for every file and every condition whose optional fields
are all unset, `Condition.matches` returns `true`, whatever the
filesystem, regex engine, or home directory. -/
theorem matches_all_unset (c : Condition) (env : Env) (fs : FS) (fp : String)
    (hp : c.path = none) (he : c.extension = none) (hpat : c.pattern = none)
    (hgt : c.size_gt = none) (hlt : c.size_lt = none)
    (hnp : c.name_pattern = none) :
    c.matches env fs fp = true := by
  simp [Condition.matches, hp, he, hpat, hgt, hlt, hnp, truthyStr, truthyList,
    truthyInt]

/-- Witness for `matches_all_unset` at a concrete file. -/
theorem matches_all_unset_witness :
    ({} : Condition).matches {} {} "/tmp/x.txt" = true :=
  matches_all_unset {} {} {} "/tmp/x.txt" rfl rfl rfl rfl rfl rfl

/-! ## Claim C10: size fields that are unset or 0 impose no constraint
and trigger no stat. -/

/-- Claim C10: when `size_gt` and `size_lt` are each unset or `0` (the
`parse_size` fallback value), `Condition.matches` skips the size check:
its result never consults the filesystem stat (the two sides may use
different filesystems) and equals the result for the same condition with
both size fields unset — so any file, including an empty one, is not
constrained by them. -/
theorem matches_size_zero_skipped (c : Condition) (env : Env) (fp : String)
    (hgt : c.size_gt = none ∨ c.size_gt = some 0)
    (hlt : c.size_lt = none ∨ c.size_lt = some 0) :
    ∀ fs fs' : FS,
      c.matches env fs fp =
        ({ c with size_gt := none, size_lt := none } : Condition).matches env fs' fp := by
  intro fs fs'
  have hg : truthyInt c.size_gt = false := by
    rcases hgt with h | h <;> simp [h, truthyInt]
  have hl : truthyInt c.size_lt = false := by
    rcases hlt with h | h <;> simp [h, truthyInt]
  have hnone : truthyInt (none : Option Int) = false := rfl
  simp [Condition.matches, hg, hl, hnone]

/-- Witness for `matches_size_zero_skipped`: a `size_gt` that degraded to
0 checked against an empty file on one side and a filesystem with no
stat data at all on the other. -/
theorem matches_size_zero_skipped_witness :
    ({ size_gt := some 0 } : Condition).matches {}
        { files := [("/tmp/empty", { size := 0 })] } "/tmp/empty" =
      ({} : Condition).matches {} {} "/tmp/empty" :=
  matches_size_zero_skipped { size_gt := some 0 } {} "/tmp/empty"
    (Or.inr rfl) (Or.inl rfl)
    { files := [("/tmp/empty", { size := 0 })] } {}

/-! ## Claim C4: dry-run executes nothing and planning mutates nothing. -/

/-- Claim C4: in dry-run mode `execute` returns an empty result list and
leaves the filesystem untouched, for any planned operation list; in
particular running the whole plan produced by `scan_and_plan` in dry-run
mode returns no results and leaves every file, directory and tag as it
was. -/
theorem dry_run_is_noop (env : Env) (rules : RuleSets) (fs : FS) (t : Nat) :
    (∀ ops : List Operation, Runner.execute env true ops fs t = ([], fs, t)) ∧
    Runner.execute env true (scan_and_plan env rules fs) fs t = ([], fs, t) := by
  constructor
  · intro ops
    simp [Runner.execute]
  · simp [Runner.execute]

/-! ## Claim C8: the rename computation and the no-op guard. -/

theorem mk_append (a b : List Char) : String.mk a ++ String.mk b = String.mk (a ++ b) :=
  rfl

theorem joinParent_pathName (p : String) : joinParent p (pathName p) = p := by
  unfold joinParent pathDirPart pathName
  rw [mk_append, ← List.reverse_append, List.takeWhile_append_dropWhile,
    List.reverse_reverse]
  cases p
  rfl

/-- Claim C8: with `prefix="IMG"` and `separator="-"`, `vacation.png`
renames to `IMG-vacation.png`; and whenever the computed new name equals
the file's current name, `Renamer.rename` leaves the filesystem exactly
as it was (no rename call). -/
theorem rename_compute_and_noop (env : Env) :
    Renamer.computeNewName env "vacation.png" none (some "IMG") none "-" =
      "IMG-vacation.png" ∧
    (∀ (fp : String) (replace pfx sfx : Option String) (sep : String) (fs : FS),
      pathExists fs fp = true →
      Renamer.computeNewName env (pathName fp) replace pfx sfx sep = pathName fp →
      Renamer.rename env fp replace pfx sfx sep fs = .ok (fp, fs)) := by
  constructor
  · rfl
  · intro fp replace pfx sfx sep fs hex hname
    simp [Renamer.rename, hex, hname, joinParent_pathName]

/-- Witness for `rename_compute_and_noop`: a file whose computed new name
is unchanged, so the filesystem comes back untouched. -/
theorem rename_compute_and_noop_witness :
    Renamer.rename {} "/tmp/a.txt" none none none "-"
        { files := [("/tmp/a.txt", {})] } =
      .ok ("/tmp/a.txt", { files := [("/tmp/a.txt", {})] }) :=
  (rename_compute_and_noop {}).2 "/tmp/a.txt" none none none "-"
    { files := [("/tmp/a.txt", {})] } (by decide) (by decide)

/-! ## Claim C7: scan scoping of move versus rename/tag rules. -/

theorem scanDirectory_sub (env : Env) (fs : FS) (path fp : String)
    (h : fp ∈ scanDirectory env fs path) :
    fp = expanduser env.home path ∨
      fp.startsWith (expanduser env.home path ++ "/") = true := by
  simp only [scanDirectory] at h
  split at h
  · simp at h
  · split at h
    · simp at h
      exact Or.inl h
    · rw [List.mem_filter] at h
      exact Or.inr h.2

/-- Claim C7: a move rule whose condition has a falsy path plans nothing
at all; a move rule with a path only ever plans operations on files under
that (expanded) path; while rename and tag rules plan exactly the files
found in the fixed default scan locations that satisfy the condition —
their scanning is not scoped by the condition's path. -/
theorem planner_scoping (env : Env) (fs : FS) :
    (∀ rule : Rule, truthyStr rule.condition.path = false →
      planMoveOps env rule fs = []) ∧
    (∀ (rule : Rule) (op : Operation), op ∈ planMoveOps env rule fs →
      op.source = expanduser env.home (rule.condition.path.getD "") ∨
      op.source.startsWith
        (expanduser env.home (rule.condition.path.getD "") ++ "/") = true) ∧
    (∀ (rule : Rule) (fp : String),
      (∃ op ∈ planRenameOps env rule fs, op.source = fp) ↔
      ((∃ sp ∈ defaultScanPaths env, fp ∈ scanDirectory env fs sp) ∧
        rule.condition.matches env fs fp = true)) ∧
    (∀ (rule : Rule) (fp : String),
      (∃ op ∈ planTagOps env rule fs, op.source = fp) ↔
      ((∃ sp ∈ defaultScanPaths env, fp ∈ scanDirectory env fs sp) ∧
        rule.condition.matches env fs fp = true)) := by
  refine ⟨?_, ?_, ?_, ?_⟩
  · intro rule h
    simp [planMoveOps, h]
  · intro rule op hop
    by_cases h : truthyStr rule.condition.path
    · simp only [planMoveOps, h, if_neg, Bool.not_eq_true, not_false_eq_true,
        if_true] at hop
      rw [if_neg (by simp [h])] at hop
      rw [List.mem_map] at hop
      obtain ⟨f, hf, hmk⟩ := hop
      rw [List.mem_filter] at hf
      have hsrc : op.source = f := by rw [← hmk]; rfl
      rw [hsrc]
      exact scanDirectory_sub env fs _ f hf.1
    · simp [planMoveOps, h] at hop
  · intro rule fp
    constructor
    · rintro ⟨op, hop, hsrc⟩
      rw [planRenameOps, List.mem_flatMap] at hop
      obtain ⟨sp, hsp, hop⟩ := hop
      rw [List.mem_map] at hop
      obtain ⟨f, hf, hmk⟩ := hop
      rw [List.mem_filter] at hf
      have hs2 : op.source = f := by rw [← hmk]; rfl
      have hfp : f = fp := by rw [← hs2, hsrc]
      rw [hfp] at hf
      exact ⟨⟨sp, hsp, hf.1⟩, hf.2⟩
    · rintro ⟨⟨sp, hsp, hscan⟩, hmatch⟩
      refine ⟨mkRenameOp rule fp, ?_, rfl⟩
      rw [planRenameOps, List.mem_flatMap]
      refine ⟨sp, hsp, ?_⟩
      rw [List.mem_map]
      exact ⟨fp, List.mem_filter.mpr ⟨hscan, hmatch⟩, rfl⟩
  · intro rule fp
    constructor
    · rintro ⟨op, hop, hsrc⟩
      rw [planTagOps, List.mem_flatMap] at hop
      obtain ⟨sp, hsp, hop⟩ := hop
      rw [List.mem_map] at hop
      obtain ⟨f, hf, hmk⟩ := hop
      rw [List.mem_filter] at hf
      have hs2 : op.source = f := by rw [← hmk]; rfl
      have hfp : f = fp := by rw [← hs2, hsrc]
      rw [hfp] at hf
      exact ⟨⟨sp, hsp, hf.1⟩, hf.2⟩
    · rintro ⟨⟨sp, hsp, hscan⟩, hmatch⟩
      refine ⟨mkTagOp rule fp, ?_, rfl⟩
      rw [planTagOps, List.mem_flatMap]
      refine ⟨sp, hsp, ?_⟩
      rw [List.mem_map]
      exact ⟨fp, List.mem_filter.mpr ⟨hscan, hmatch⟩, rfl⟩

/-- Witness for `planner_scoping`: a move rule without a path plans no
operations even over a non-empty filesystem. -/
theorem planner_scoping_witness :
    planMoveOps {} { name := "r", condition := {}, action := {} }
      { files := [("/home/user/Downloads/x.pdf", {})],
        dirs := ["/home/user/Downloads"] } = [] :=
  (planner_scoping {} _).1 { name := "r", condition := {}, action := {} } rfl

/-! ## Claim C5: one timestamped result per executed operation,
failures captured without stopping the batch. -/

theorem executeGo_length (env : Env) :
    ∀ (ops : List Operation) (fs : FS) (t : Nat),
      (executeGo env ops fs t).1.length = ops.length := by
  intro ops
  induction ops with
  | nil => intro fs t; simp [executeGo]
  | cons op rest ih =>
    intro fs t
    simp [executeGo, ih]

theorem executeGo_spec (env : Env) :
    ∀ (ops : List Operation) (fs : FS) (t : Nat) (i : Nat)
      (hi : i < (executeGo env ops fs t).1.length) (hj : i < ops.length),
      ((executeGo env ops fs t).1.get ⟨i, hi⟩).timestamp = t + i ∧
      ((executeGo env ops fs t).1.get ⟨i, hi⟩).operation.executed = true ∧
      ((executeGo env ops fs t).1.get ⟨i, hi⟩).operation.source =
        (ops.get ⟨i, hj⟩).source ∧
      ((executeGo env ops fs t).1.get ⟨i, hi⟩).operation.rule_name =
        (ops.get ⟨i, hj⟩).rule_name ∧
      (((executeGo env ops fs t).1.get ⟨i, hi⟩).operation.success = false →
        ((executeGo env ops fs t).1.get ⟨i, hi⟩).operation.error.isSome = true) := by
  intro ops
  induction ops with
  | nil =>
    intro fs t i hi hj
    simp [executeGo] at hi
  | cons op rest ih =>
    intro fs t i hi hj
    cases i with
    | zero =>
      cases h : (performOperation env op fs).2 with
      | none => simp [executeGo, h]
      | some e => simp [executeGo, h]
    | succ i =>
      have hi' : i < (executeGo env rest (performOperation env op fs).1 (t + 1)).1.length := by
        rw [executeGo_length env rest]
        have hlen := executeGo_length env (op :: rest) fs t
        rw [hlen] at hi
        simp at hi
        omega
      have hj' : i < rest.length := by simp at hj; omega
      have hmain := ih (performOperation env op fs).1 (t + 1) i hi' hj'
      have hrw :
          (executeGo env (op :: rest) fs t).1.get ⟨i + 1, hi⟩ =
            (executeGo env rest (performOperation env op fs).1 (t + 1)).1.get ⟨i, hi'⟩ := by
        simp [executeGo]
      rw [hrw]
      have hrw2 : ((op :: rest).get ⟨i + 1, hj⟩) = rest.get ⟨i, hj'⟩ := rfl
      rw [hrw2]
      obtain ⟨h1, h2, h3, h4, h5⟩ := hmain
      exact ⟨by omega, h2, h3, h4, h5⟩

/-- Claim C5: executing a plan outside dry-run yields exactly one
timestamped `OperationResult` per operation — whatever the collaborators
do — and the result at position `i` refers to operation `i`, is marked
executed, and carries a captured error whenever it was not a success.
(The length equality for every environment is the fail-forward property:
a failing operation does not stop the batch.) -/
theorem execute_one_result_per_op (env : Env) (ops : List Operation)
    (fs : FS) (t : Nat) :
    (Runner.execute env false ops fs t).1.length = ops.length ∧
    ∀ (i : Nat) (hi : i < (Runner.execute env false ops fs t).1.length)
      (hj : i < ops.length),
      ((Runner.execute env false ops fs t).1.get ⟨i, hi⟩).timestamp = t + i ∧
      ((Runner.execute env false ops fs t).1.get ⟨i, hi⟩).operation.executed = true ∧
      ((Runner.execute env false ops fs t).1.get ⟨i, hi⟩).operation.source =
        (ops.get ⟨i, hj⟩).source ∧
      ((Runner.execute env false ops fs t).1.get ⟨i, hi⟩).operation.rule_name =
        (ops.get ⟨i, hj⟩).rule_name ∧
      (((Runner.execute env false ops fs t).1.get ⟨i, hi⟩).operation.success = false →
        ((Runner.execute env false ops fs t).1.get ⟨i, hi⟩).operation.error.isSome = true) := by
  have hx : Runner.execute env false ops fs t = executeGo env ops fs t := rfl
  rw [hx]
  exact ⟨executeGo_length env ops fs t,
    fun i hi hj => executeGo_spec env ops fs t i hi hj⟩

/-- Witness for `execute_one_result_per_op`: a two-operation batch whose
first operation fails (its move details name a missing source), yet both
operations produce executed results. -/
theorem execute_one_result_per_op_witness :
    (Runner.execute {} false
      [{ rule_name := "r1", operation_type := "move", source := "/missing",
         details := .move "/dst" false none },
       { rule_name := "r2", operation_type := "tag", source := "/x",
         details := .tag {} }] {} 7).1.length = 2 ∧
    ((Runner.execute {} false
      [{ rule_name := "r1", operation_type := "move", source := "/missing",
         details := .move "/dst" false none },
       { rule_name := "r2", operation_type := "tag", source := "/x",
         details := .tag {} }] {} 7).1.get ⟨1, by decide⟩).operation.executed = true :=
  ⟨(execute_one_result_per_op {} _ {} 7).1,
   ((execute_one_result_per_op {} _ {} 7).2 1 (by decide) (by decide)).2.1⟩

/-! ## Claim C6: the tag sub-step of a move runs only after a successful
relocation and cannot undo it or fail the operation. -/

theorem add_tag_frame (env : Env) (fp : String) (color label : Option String)
    (fs : FS) :
    ((Tagger.add_tag env fp color label fs).2).files = fs.files ∧
    ((Tagger.add_tag env fp color label fs).2).dirs = fs.dirs := by
  unfold Tagger.add_tag
  repeat' split
  all_goals dsimp only
  all_goals constructor <;> (repeat' split) <;> rfl

/-- Claim C6: in `_execute_move`, if the relocation step fails then the
error is the reported one and no tag was written (tag metadata is exactly
the original); if the relocation succeeds then — whatever the tagging
collaborator does or fails to do — the operation reports no error (so its
success flag is unaffected) and the files and directories are exactly
those produced by the move, i.e. the relocation is never reverted. -/
theorem execMove_tag_after_move (env : Env) (src dest : String) (cim : Bool)
    (tg : Option Tag) (fs : FS) :
    (∀ e, Mover.move src dest
        (if cim then { fs with dirs := dest :: fs.dirs } else fs) = .error e →
      execMove env src dest cim tg fs =
        ((if cim then { fs with dirs := dest :: fs.dirs } else fs), some e) ∧
      (execMove env src dest cim tg fs).1.tags = fs.tags) ∧
    (∀ (d : String) (fs2 : FS), Mover.move src dest
        (if cim then { fs with dirs := dest :: fs.dirs } else fs) = .ok (d, fs2) →
      (execMove env src dest cim tg fs).2 = none ∧
      (execMove env src dest cim tg fs).1.files = fs2.files ∧
      (execMove env src dest cim tg fs).1.dirs = fs2.dirs) := by
  constructor
  · intro e he
    have hx : execMove env src dest cim tg fs =
        ((if cim then { fs with dirs := dest :: fs.dirs } else fs), some e) := by
      simp [execMove, he]
    refine ⟨hx, ?_⟩
    rw [hx]
    cases cim <;> simp
  · intro d fs2 hok
    cases tg with
    | none => simp [execMove, hok]
    | some t =>
      have hx : execMove env src dest cim (some t) fs =
          ((Tagger.add_tag env src t.color t.label fs2).2, none) := by
        simp [execMove, hok]
      rw [hx]
      have hfr := add_tag_frame env src t.color t.label fs2
      exact ⟨rfl, hfr.1, hfr.2⟩

/-- Witness for `execMove_tag_after_move`: a move into an existing
directory with a tag payload, on a non-macOS environment where the tag
sub-step returns `False` — the move still reports no error. -/
theorem execMove_tag_after_move_witness :
    (execMove {} "/a" "/d" false (some { label := some "x" })
      { files := [("/a", {})], dirs := ["/d"] }).2 = none :=
  ((execMove_tag_after_move {} "/a" "/d" false (some { label := some "x" })
      { files := [("/a", {})], dirs := ["/d"] }).2 "/d/a"
    { files := [("/d/a", {})], dirs := ["/d/", "/d"] } (by rfl)).1

/-! ## Claim C3: keep-policy selection and the small-group no-op. -/

theorem maxByMtimeAux_spec (fs : FS) :
    ∀ (l : List String) (best : String) (bk : Int),
      statMtime fs best = some bk →
      (∀ p ∈ l, (statMtime fs p).isSome = true) →
      ∃ kf mk, maxByMtimeAux fs best bk l = .ok kf ∧ (kf = best ∨ kf ∈ l) ∧
        statMtime fs kf = some mk ∧ bk ≤ mk ∧
        ∀ p ∈ l, ∀ mp, statMtime fs p = some mp → mp ≤ mk := by
  intro l
  induction l with
  | nil =>
    intro best bk hb _
    exact ⟨best, bk, rfl, Or.inl rfl, hb, le_refl bk, by simp⟩
  | cons p rest ih =>
    intro best bk hb hall
    obtain ⟨m, hm⟩ := Option.isSome_iff_exists.mp (hall p (by simp))
    have hrest : ∀ q ∈ rest, (statMtime fs q).isSome = true :=
      fun q hq => hall q (by simp [hq])
    by_cases hlt : bk < m
    · obtain ⟨kf, mk, hrun, hmem, hkm, hle, hbound⟩ := ih p m hm hrest
      refine ⟨kf, mk, ?_, ?_, hkm, le_of_lt (lt_of_lt_of_le hlt hle), ?_⟩
      · simp [maxByMtimeAux, hm, hlt, hrun]
      · rcases hmem with h | h
        · exact Or.inr (by simp [h])
        · exact Or.inr (by simp [h])
      · intro q hq mq hmq
        rcases List.mem_cons.mp hq with h | h
        · rw [h] at hmq
          rw [hm] at hmq
          injection hmq with hmq
          omega
        · exact hbound q h mq hmq
    · obtain ⟨kf, mk, hrun, hmem, hkm, hle, hbound⟩ := ih best bk hb hrest
      refine ⟨kf, mk, ?_, ?_, hkm, hle, ?_⟩
      · simp [maxByMtimeAux, hm, hlt, hrun]
      · rcases hmem with h | h
        · exact Or.inl h
        · exact Or.inr (by simp [h])
      · intro q hq mq hmq
        rcases List.mem_cons.mp hq with h | h
        · rw [h] at hmq
          rw [hm] at hmq
          injection hmq with hmq
          omega
        · exact hbound q h mq hmq

theorem minByMtimeAux_spec (fs : FS) :
    ∀ (l : List String) (best : String) (bk : Int),
      statMtime fs best = some bk →
      (∀ p ∈ l, (statMtime fs p).isSome = true) →
      ∃ kf mk, minByMtimeAux fs best bk l = .ok kf ∧ (kf = best ∨ kf ∈ l) ∧
        statMtime fs kf = some mk ∧ mk ≤ bk ∧
        ∀ p ∈ l, ∀ mp, statMtime fs p = some mp → mk ≤ mp := by
  intro l
  induction l with
  | nil =>
    intro best bk hb _
    exact ⟨best, bk, rfl, Or.inl rfl, hb, le_refl bk, by simp⟩
  | cons p rest ih =>
    intro best bk hb hall
    obtain ⟨m, hm⟩ := Option.isSome_iff_exists.mp (hall p (by simp))
    have hrest : ∀ q ∈ rest, (statMtime fs q).isSome = true :=
      fun q hq => hall q (by simp [hq])
    by_cases hlt : m < bk
    · obtain ⟨kf, mk, hrun, hmem, hkm, hle, hbound⟩ := ih p m hm hrest
      refine ⟨kf, mk, ?_, ?_, hkm, le_of_lt (lt_of_le_of_lt hle hlt), ?_⟩
      · simp [minByMtimeAux, hm, hlt, hrun]
      · rcases hmem with h | h
        · exact Or.inr (by simp [h])
        · exact Or.inr (by simp [h])
      · intro q hq mq hmq
        rcases List.mem_cons.mp hq with h | h
        · rw [h] at hmq
          rw [hm] at hmq
          injection hmq with hmq
          omega
        · exact hbound q h mq hmq
    · obtain ⟨kf, mk, hrun, hmem, hkm, hle, hbound⟩ := ih best bk hb hrest
      refine ⟨kf, mk, ?_, ?_, hkm, hle, ?_⟩
      · simp [minByMtimeAux, hm, hlt, hrun]
      · rcases hmem with h | h
        · exact Or.inl h
        · exact Or.inr (by simp [h])
      · intro q hq mq hmq
        rcases List.mem_cons.mp hq with h | h
        · rw [h] at hmq
          rw [hm] at hmq
          injection hmq with hmq
          omega
        · exact hbound q h mq hmq

/-- Claim C3: `handle_duplicates` is a no-op on groups with fewer than 2
members; on larger groups with stat data available, `keep="newest"`
selects a member of maximal modification time, `keep="oldest"` one of
minimal modification time, and `keep="first"` selects the first element
of the group without consulting any timestamp. -/
theorem handle_duplicates_keep_policy (env : Env) (fs : FS)
    (group : List String) (keep : String) (td : Bool) (lbl : String) :
    (group.length < 2 → handle_duplicates env group keep td lbl fs = .ok fs) ∧
    ((∀ p ∈ group, (statMtime fs p).isSome = true) → group ≠ [] →
      (∃ kf mk, selectKeep fs group "newest" = .ok kf ∧ kf ∈ group ∧
        statMtime fs kf = some mk ∧
        ∀ p ∈ group, ∀ mp, statMtime fs p = some mp → mp ≤ mk) ∧
      (∃ kf mk, selectKeep fs group "oldest" = .ok kf ∧ kf ∈ group ∧
        statMtime fs kf = some mk ∧
        ∀ p ∈ group, ∀ mp, statMtime fs p = some mp → mk ≤ mp)) ∧
    (∀ (p : String) (rest : List String), group = p :: rest →
      selectKeep fs group "first" = .ok p) := by
  refine ⟨?_, ?_, ?_⟩
  · intro hlen
    simp [handle_duplicates, hlen]
  · intro hall hne
    obtain ⟨p, rest, hcons⟩ := List.exists_cons_of_ne_nil hne
    subst hcons
    obtain ⟨m, hm⟩ := Option.isSome_iff_exists.mp (hall p (by simp))
    have hrest : ∀ q ∈ rest, (statMtime fs q).isSome = true :=
      fun q hq => hall q (by simp [hq])
    constructor
    · obtain ⟨kf, mk, hrun, hmem, hkm, _, hbound⟩ :=
        maxByMtimeAux_spec fs rest p m hm hrest
      refine ⟨kf, mk, ?_, ?_, hkm, ?_⟩
      · simp [selectKeep, maxByMtime, hm, hrun]
      · rcases hmem with h | h
        · exact by simp [h]
        · exact by simp [h]
      · intro q hq mq hmq
        rcases List.mem_cons.mp hq with h | h
        · rw [h] at hmq
          rw [hm] at hmq
          injection hmq with hmq
          obtain ⟨_, _, _, _, hle, _⟩ := maxByMtimeAux_spec fs rest p m hm hrest
          omega
        · exact hbound q h mq hmq
    · obtain ⟨kf, mk, hrun, hmem, hkm, hle, hbound⟩ :=
        minByMtimeAux_spec fs rest p m hm hrest
      refine ⟨kf, mk, ?_, ?_, hkm, ?_⟩
      · simp [selectKeep, minByMtime, hm, hrun]
      · rcases hmem with h | h
        · exact by simp [h]
        · exact by simp [h]
      · intro q hq mq hmq
        rcases List.mem_cons.mp hq with h | h
        · rw [h] at hmq
          rw [hm] at hmq
          injection hmq with hmq
          omega
        · exact hbound q h mq hmq
  · intro p rest hcons
    subst hcons
    simp [selectKeep]

/-- Witness for `handle_duplicates_keep_policy`: a singleton group is
left untouched, and in a two-file group with mtimes 10 and 20 the newest
policy has a maximal-mtime selection. -/
theorem handle_duplicates_keep_policy_witness :
    handle_duplicates {} ["/only"] "newest" false "dup" {} = .ok {} ∧
    (∃ kf mk,
      selectKeep { files := [("/a", { mtime := 10 }), ("/b", { mtime := 20 })] }
        ["/a", "/b"] "newest" = .ok kf ∧ kf ∈ ["/a", "/b"] ∧
      statMtime { files := [("/a", { mtime := 10 }), ("/b", { mtime := 20 })] }
        kf = some mk ∧
      ∀ p ∈ ["/a", "/b"], ∀ mp,
        statMtime { files := [("/a", { mtime := 10 }), ("/b", { mtime := 20 })] }
          p = some mp → mp ≤ mk) :=
  ⟨(handle_duplicates_keep_policy {} {} ["/only"] "newest" false "dup").1
      (by decide),
   ((handle_duplicates_keep_policy {}
        { files := [("/a", { mtime := 10 }), ("/b", { mtime := 20 })] }
        ["/a", "/b"] "newest" false "dup").2.1 (by decide) (by decide)).1⟩

/-! ## Claim C2: content-duplicate grouping. -/

theorem getGroup_addGroup_self (k : List Nat) (p : String) :
    ∀ acc, getGroup k (addGroup k p acc) = getGroup k acc ++ [p] := by
  intro acc
  induction acc with
  | nil => simp [addGroup, getGroup, List.find?]
  | cons kv rest ih =>
    obtain ⟨k', ps⟩ := kv
    by_cases h : k' = k
    · subst h
      simp [addGroup, getGroup, List.find?]
    · simp only [addGroup, if_neg h]
      simp [getGroup, List.find?, h] at ih ⊢
      exact ih

theorem getGroup_addGroup_other (k k' : List Nat) (p : String) (h : k' ≠ k) :
    ∀ acc, getGroup k (addGroup k' p acc) = getGroup k acc := by
  intro acc
  induction acc with
  | nil => simp [addGroup, getGroup, List.find?, h]
  | cons kv rest ih =>
    obtain ⟨k'', ps⟩ := kv
    by_cases h2 : k'' = k'
    · subst h2
      simp [addGroup, getGroup, List.find?, h]
    · simp only [addGroup, if_neg h2]
      by_cases h3 : k'' = k
      · subst h3
        simp [getGroup, List.find?]
      · simp [getGroup, List.find?, h3] at ih ⊢
        exact ih

theorem getGroup_contentGroupsAux (fs : FS) (k : List Nat) :
    ∀ (files : List String) (acc : List (List Nat × List String)),
      getGroup k (contentGroupsAux fs acc files) =
        getGroup k acc ++ files.filter (fun p => decide (eligKey fs p = some k)) := by
  intro files
  induction files with
  | nil => intro acc; simp [contentGroupsAux]
  | cons p rest ih =>
    intro acc
    cases hek : eligKey fs p with
    | some k2 =>
      by_cases hk : k2 = k
      · subst hk
        rw [contentGroupsAux, hek]
        rw [ih (addGroup k2 p acc), getGroup_addGroup_self]
        rw [List.filter_cons]
        simp [hek, List.append_assoc]
      · rw [contentGroupsAux, hek]
        rw [ih (addGroup k2 p acc), getGroup_addGroup_other k k2 p hk]
        rw [List.filter_cons]
        have hfalse : decide (eligKey fs p = some k) = false := by simp [hek, hk]
        simp [hfalse]
    | none =>
      rw [contentGroupsAux, hek]
      rw [ih acc, List.filter_cons]
      have hfalse : decide (eligKey fs p = some k) = false := by simp [hek]
      simp [hfalse]

theorem getGroup_mem (k : List Nat) (acc : List (List Nat × List String))
    (h : getGroup k acc ≠ []) : (k, getGroup k acc) ∈ acc := by
  unfold getGroup at h ⊢
  cases hf : acc.find? (fun kv => decide (kv.1 = k)) with
  | none =>
    rw [hf] at h
    simp at h
  | some kv =>
    have hmem := List.mem_of_find?_eq_some hf
    have hpred := List.find?_some hf
    have hk : kv.1 = k := of_decide_eq_true hpred
    rw [← hk]
    simpa using hmem

theorem one_lt_length_of_two_mem {α : Type} {p q : α} {l : List α}
    (hp : p ∈ l) (hq : q ∈ l) (hne : p ≠ q) : 1 < l.length := by
  cases l with
  | nil => simp at hp
  | cons a t =>
    cases t with
    | nil =>
      simp at hp hq
      rw [hp, ← hq] at hne
      exact absurd rfl hne
    | cons b u =>
      simp only [List.length_cons]
      omega

/-- Claim C2: every group returned by `find_duplicates(files, "content")`
has at least two members, and any two distinct regular, readable files of
the input with the same content digest land in one common returned
group. -/
theorem find_duplicates_content_spec (fs : FS) (files : List String) :
    (∀ g ∈ find_duplicates fs files "content", 2 ≤ g.length) ∧
    (∀ p q : String, p ∈ files → q ∈ files → p ≠ q →
      ∀ k : List Nat, eligKey fs p = some k → eligKey fs q = some k →
      ∃ g, g ∈ find_duplicates fs files "content" ∧ p ∈ g ∧ q ∈ g) := by
  have hfd : find_duplicates fs files "content" = findByContent fs files := by
    simp [find_duplicates]
  constructor
  · intro g hg
    rw [hfd] at hg
    unfold findByContent at hg
    rw [List.mem_filter] at hg
    have := of_decide_eq_true hg.2
    omega
  · intro p q hp hq hne k hkp hkq
    have hG : getGroup k (contentGroupsAux fs [] files) =
        files.filter (fun x => decide (eligKey fs x = some k)) := by
      rw [getGroup_contentGroupsAux]
      simp [getGroup, List.find?]
    have hpG : p ∈ getGroup k (contentGroupsAux fs [] files) := by
      rw [hG]
      exact List.mem_filter.mpr ⟨hp, by simp [hkp]⟩
    have hqG : q ∈ getGroup k (contentGroupsAux fs [] files) := by
      rw [hG]
      exact List.mem_filter.mpr ⟨hq, by simp [hkq]⟩
    have hne2 : getGroup k (contentGroupsAux fs [] files) ≠ [] := by
      intro h
      rw [h] at hpG
      simp at hpG
    have hmem := getGroup_mem k (contentGroupsAux fs [] files) hne2
    refine ⟨getGroup k (contentGroupsAux fs [] files), ?_, hpG, hqG⟩
    rw [hfd]
    unfold findByContent
    rw [List.mem_filter]
    constructor
    · rw [List.mem_map]
      exact ⟨(k, getGroup k (contentGroupsAux fs [] files)), hmem, rfl⟩
    · exact decide_eq_true (one_lt_length_of_two_mem hpG hqG hne)

/-- Witness for `find_duplicates_content_spec`: two files with the same
content digest end up in one returned group. -/
theorem find_duplicates_content_witness :
    ∃ g, g ∈ find_duplicates
      { files := [("/x/a", { content := some [7] }),
                  ("/y/b", { content := some [7] })] }
      ["/x/a", "/y/b"] "content" ∧ "/x/a" ∈ g ∧ "/y/b" ∈ g :=
  (find_duplicates_content_spec
      { files := [("/x/a", { content := some [7] }),
                  ("/y/b", { content := some [7] })] }
      ["/x/a", "/y/b"]).2 "/x/a" "/y/b" (by decide) (by decide) (by decide)
    [7] (by decide) (by decide)

end FileOrg
